import Mathlib

/-!
Verification development for the flask-restplus-model-mapper repository
(`src/domain_mapper.py`).  The `DomainMapper` class derives, from a live
domain-object instance, a flask-restplus output model and a marshmallow
input schema, and stores both in name-keyed registries.

Shallow embedding conventions:
* Python `dict`s become insertion-ordered association lists
  (`List (String × _)`) with `dictLookup` / `dictInsert` mirroring
  subscript access and assignment (assignment keeps the position of an
  existing key and appends a fresh one, as CPython dicts do).
* A Python value is modelled by its runtime-type structure (`PyVal`):
  classification and schema derivation in `register` depend only on
  `type(val).__name__`, the method-resolution-order ancestry used by
  `isinstance`, and list structure, never on the payload data.  Types
  are identified by `__name__`, exactly as the registry itself keys
  schemas by class name.
* Field objects of the two external schema libraries are modelled by the
  constructor shape and arguments the source passes to them (`OutField`
  for flask-restplus, `InField` for marshmallow).
* Exceptions become an error inductive `MErr`; the cases raised as
  `MappingError` in the source are distinguished from a raw `KeyError`
  (dict subscript on a missing key) and from a failing `assert`.
* Mutation of `self` is threaded explicitly: `register` returns the
  resulting `Mapper` together with `none` on success or `some e` when
  the Python method would raise.
-/

/-- Lookup in a Python-style dict modelled as an association list:
`d[k]` yielding `some` value or `none` when the key is absent. -/
def dictLookup {α : Type} (k : String) : List (String × α) → Option α
  | [] => none
  | (k', v) :: rest => if k' = k then some v else dictLookup k rest

/-- Assignment `d[k] = v` on a Python-style dict: overwrite in place if
the key exists (keeping its position), otherwise append at the end. -/
def dictInsert {α : Type} (k : String) (v : α) : List (String × α) → List (String × α)
  | [] => [(k, v)]
  | (k', v') :: rest => if k' = k then (k, v) :: rest else (k', v') :: dictInsert k v rest

/-- `base.update(upd)`: fold every binding of `upd` into `base`.  This is
how `flask_restplus.Api.clone` merges a parent model's fields with the
new field dict, and how Python class creation lets subclass attributes
shadow inherited ones. -/
def dictUpdate {α : Type} (base upd : List (String × α)) : List (String × α) :=
  upd.foldl (fun acc p => dictInsert p.1 p.2 acc) base

/-- Remove a key from a dict (used for the `make_object` entry of the
marshmallow class dict, which is a post-load hook rather than a field). -/
def dictRemove {α : Type} (k : String) : List (String × α) → List (String × α)
  | [] => []
  | (k', v) :: rest => if k' = k then dictRemove k rest else (k', v) :: dictRemove k rest

/-- The key list of a dict, in order. -/
def dictKeys {α : Type} (l : List (String × α)) : List String :=
  l.map Prod.fst

/-- Python whitespace as recognised by `str.strip()`:
space, tab, newline, carriage return, vertical tab, form feed. -/
def pyIsSpace (c : Char) : Bool :=
  c = ' ' || c = '\t' || c = '\n' || c = '\r' || c = Char.ofNat 11 || c = Char.ofNat 12

/-- `str.strip()` on the underlying character list. -/
def stripChars (cs : List Char) : List Char :=
  ((cs.dropWhile pyIsSpace).reverse.dropWhile pyIsSpace).reverse

/-- `str.split(sep)` for a one-character separator: always returns at
least one (possibly empty) segment, like Python's `split`. -/
def splitOnChar (sep : Char) : List Char → List (List Char)
  | [] => [[]]
  | c :: rest =>
    let r := splitOnChar sep rest
    if c = sep then [] :: r
    else
      match r with
      | [] => [[c]]
      | g :: gs => (c :: g) :: gs

/-- A Python runtime type: its `__name__` and the names of its proper
MRO ancestors (e.g. `bool` has ancestors `["int", "object"]`). -/
structure PyType where
  name : String
  ancestors : List String

/-- A Python value, modelled by its runtime-type structure: a non-list
value of some type, or a list of values (`type(val).__name__ == "list"`). -/
inductive PyVal where
  | scalar (ty : PyType)
  | list (elems : List PyVal)

/-- `type(val)`: the runtime type of a value. -/
def PyVal.type : PyVal → PyType
  | .scalar ty => ty
  | .list _ => ⟨"list", ["object"]⟩

/-- `type(val).__name__`. -/
def PyVal.typeName (v : PyVal) : String :=
  v.type.name

/-- `isinstance(v, t)`: the type of `v` is `t` or a subclass of `t`,
i.e. `t` occurs in the MRO of `v`'s type. -/
def isinstance (v : PyVal) (t : PyType) : Bool :=
  (v.type.name :: v.type.ancestors).contains t.name

/-- The key set shared by `TO_FLASKRP_MAPPING` and `TO_MM_MAPPING`: the
runtime-type names treated as primitive scalar kinds (the spec's
{string, integer, float, boolean, date, datetime}). -/
def primitiveTypeNames : List String :=
  ["str", "int", "float", "bool", "date", "datetime"]

/-- The constructor shape of a flask-restplus field as built by
`register`: a primitive field class, `fields.Nested(model)`, a
`fields.List` of a primitive class, or a `fields.List(fields.Nested _)`.
Nested references capture the registered schema of the named class. -/
inductive FKind where
  | prim (t : String)
  | nested (cls : String)
  | listPrim (t : String)
  | listNested (cls : String)
deriving DecidableEq

/-- A flask-restplus field value with the keyword arguments `register`
passes: an optional `example`, an optional `description`, and
`required`. -/
structure OutField where
  kind : FKind
  exampleVal : Option PyVal
  description : Option String
  required : Bool

/-- The constructor shape of a marshmallow field as built by `register`:
primitive, `fields.Nested(schema)`, `fields.List` of a primitive, or
`fields.Nested(schema, many=True)`. -/
inductive MKind where
  | prim (t : String)
  | nested (cls : String)
  | listPrim (t : String)
  | nestedMany (cls : String)
deriving DecidableEq

/-- A marshmallow field value with its `required` keyword argument. -/
structure InField where
  kind : MKind
  required : Bool
deriving DecidableEq

/-- A flask-restplus model as produced by `api.model` / `api.clone`:
its name and its (ordered) field dict. -/
structure FlaskModel where
  name : String
  fields : List (String × OutField)

/-- A marshmallow schema class as produced by `type(name, (base,), mm_dict)`:
its collected field dict and the class whose constructor the
`make_object` post-load hook invokes. -/
structure MMSchema where
  fields : List (String × InField)
  makeObjCls : String

/-- The mutable state of a `DomainMapper`: the two name-keyed registries
`self.flaskrp_mapping` and `self.mm_mapping` (the `api` handle is an
external collaborator and carries no registry state of its own). -/
structure Mapper where
  flaskrp_mapping : List (String × FlaskModel)
  mm_mapping : List (String × MMSchema)

/-- A live domain-object instance as `register` observes it: its class
name, the names of the immediate base classes (`__class__.__bases__`),
its `__dict__` items in order, and `__class__.__init__.__doc__`. -/
structure DomainObj where
  clsName : String
  bases : List String
  attrs : List (String × PyVal)
  initDoc : Option String

/-- The errors `register` and the lookups can raise.  `isMappingError`
below records which are `MappingError`s in the source; `keyError` is a
raw dict-subscript `KeyError` and `assertionFailed` a failing `assert`. -/
inductive MErr where
  | emptyList
  | heterogeneousList
  | unknownType (typeName : String)
  | multiInheritance
  | keyError (key : String)
  | assertionFailed
  | schemaNotFound (clsName : String)
deriving DecidableEq

/-- Whether the raised exception is a `MappingError` in the source. -/
def MErr.isMappingError : MErr → Bool
  | .keyError _ => false
  | .assertionFailed => false
  | _ => true

/-- `DomainMapper._parse_doc_string`: take the constructor doc string,
return `{}` if it is `None` or empty, otherwise drop tabs, strip, split
into lines, and for each line that splits on `:` into exactly three
segments map the stripped second segment to the stripped third.  Later
lines overwrite earlier ones; other lines are skipped. -/
def parse_doc_string (doc : Option String) : List (String × String) :=
  match doc with
  | none => []
  | some s =>
    if s = "" then []
    else
      let lines := splitOnChar '\n' (stripChars (s.data.filter (fun c => c ≠ '\t')))
      lines.foldl
        (fun acc line =>
          match splitOnChar ':' line with
          | [_, k, v] => dictInsert ⟨stripChars k⟩ ⟨stripChars v⟩ acc
          | _ => acc)
        []

/-- The per-attribute body of the loop in `DomainMapper.register`
(lines 77-110 of `src/domain_mapper.py`): classify one attribute value
and build its flask-restplus and marshmallow fields, or raise.  The
`description` is looked up for every attribute but only passed to the
primitive non-list field constructor, exactly as in the source. -/
def classifyAttr (m : Mapper) (pmap : List (String × String)) (req : List String)
    (key : String) (val : PyVal) : Except MErr (OutField × InField) :=
  let description := dictLookup key pmap
  match val with
  | .list elems =>
    match elems with
    | [] => .error .emptyList
    | le :: _ =>
      if elems.all (fun e => isinstance e le.type) then
        if primitiveTypeNames.contains le.typeName then
          .ok (⟨.listPrim le.typeName, some val, none, req.contains key⟩,
               ⟨.listPrim le.typeName, req.contains key⟩)
        else
          match dictLookup le.typeName m.flaskrp_mapping with
          | some _ =>
            match dictLookup le.typeName m.mm_mapping with
            | some _ =>
              .ok (⟨.listNested le.typeName, none, none, req.contains key⟩,
                   ⟨.nestedMany le.typeName, req.contains key⟩)
            | none => .error (.keyError le.typeName)
          | none => .error (.unknownType le.typeName)
      else .error .heterogeneousList
  | .scalar ty =>
    if primitiveTypeNames.contains ty.name then
      .ok (⟨.prim ty.name, some val, description, req.contains key⟩,
           ⟨.prim ty.name, req.contains key⟩)
    else
      match dictLookup ty.name m.flaskrp_mapping with
      | some _ =>
        match dictLookup ty.name m.mm_mapping with
        | some _ =>
          .ok (⟨.nested ty.name, none, none, req.contains key⟩,
               ⟨.nested ty.name, req.contains key⟩)
        | none => .error (.keyError ty.name)
      | none => .error (.unknownType ty.name)

/-- The attribute loop of `register`: fold `classifyAttr` over the
instance's `__dict__` items, accumulating `flaskrp_dict` and `mm_dict`,
aborting on the first raised error. -/
def buildFields (m : Mapper) (pmap : List (String × String)) (req : List String) :
    List (String × PyVal) → List (String × OutField) → List (String × InField) →
    Except MErr (List (String × OutField) × List (String × InField))
  | [], outAcc, inAcc => .ok (outAcc, inAcc)
  | (k, v) :: rest, outAcc, inAcc =>
    match classifyAttr m pmap req k v with
    | .error e => .error e
    | .ok (fo, fi) => buildFields m pmap req rest (dictInsert k fo outAcc) (dictInsert k fi inAcc)

/-- `DomainMapper.register(domain_obj, required_lst)`.  Returns the
resulting registry state paired with `none` on success or `some e` when
the Python method would raise `e`; every raise happens before the two
`self` assignments, so each error branch returns the incoming state.
The marshmallow class dict also receives the `make_object` post-load
hook under the key `"make_object"`; the schema metaclass collects only
field entries, so that key is removed from the field dict and the hook's
target class is recorded in `makeObjCls`. -/
def register (m : Mapper) (obj : DomainObj) (req : List String) : Mapper × Option MErr :=
  let pmap := parse_doc_string obj.initDoc
  match buildFields m pmap req obj.attrs [] [] with
  | .error e => (m, some e)
  | .ok (fdict, mdict) =>
    let mdictF := dictRemove "make_object" mdict
    if obj.bases.length > 1 then (m, some .multiInheritance)
    else
      match obj.bases with
      | [] => (m, some .assertionFailed)
      | b :: _ =>
        if b = "object" then
          (⟨dictInsert obj.clsName ⟨obj.clsName, fdict⟩ m.flaskrp_mapping,
            dictInsert obj.clsName ⟨mdictF, obj.clsName⟩ m.mm_mapping⟩, none)
        else
          match dictLookup b m.flaskrp_mapping with
          | none => (m, some (.keyError b))
          | some pm =>
            match dictLookup b m.mm_mapping with
            | none => (m, some (.keyError b))
            | some ps =>
              (⟨dictInsert obj.clsName ⟨obj.clsName, dictUpdate pm.fields fdict⟩ m.flaskrp_mapping,
                dictInsert obj.clsName ⟨dictUpdate ps.fields mdictF, obj.clsName⟩ m.mm_mapping⟩,
               none)

/-- `DomainMapper.get_flask_restplus_schema(domain_class)`: look up the
stored flask-restplus model by class name or raise `MappingError`. -/
def get_flask_restplus_schema (m : Mapper) (clsName : String) : Except MErr FlaskModel :=
  match dictLookup clsName m.flaskrp_mapping with
  | none => .error (.schemaNotFound clsName)
  | some x => .ok x

/-- `DomainMapper._get_marshmallow_schema(domain_class)`: look up the
stored marshmallow schema by class name or raise `MappingError`. -/
def get_marshmallow_schema (m : Mapper) (clsName : String) : Except MErr MMSchema :=
  match dictLookup clsName m.mm_mapping with
  | none => .error (.schemaNotFound clsName)
  | some x => .ok x

/-- A fresh `DomainMapper` (`__init__`): both registries empty. -/
def Mapper.init : Mapper := ⟨[], []⟩

/-! ### Concrete Python types and objects used in witnesses -/

/-- The runtime type of a Python `str` value. -/
def tyStr : PyType := ⟨"str", ["object"]⟩

/-- The runtime type of a Python `int` value. -/
def tyInt : PyType := ⟨"int", ["object"]⟩

/-- The runtime type of a Python `bool` value: `bool` subclasses `int`. -/
def tyBool : PyType := ⟨"bool", ["int", "object"]⟩

/-- The runtime type of `None` (`type(None).__name__ == "NoneType"`). -/
def tyNone : PyType := ⟨"NoneType", ["object"]⟩

/-- A runtime type that is neither primitive nor (initially) registered. -/
def tyWeird : PyType := ⟨"Weird", ["object"]⟩


/-! ### Dictionary lemmas -/

theorem dictKeys_nil {α : Type} : dictKeys ([] : List (String × α)) = [] := rfl

theorem dictKeys_cons {α : Type} (p : String × α) (l : List (String × α)) :
    dictKeys (p :: l) = p.1 :: dictKeys l := rfl

theorem dictLookup_insert_self {α : Type} (k : String) (v : α) (l : List (String × α)) :
    dictLookup k (dictInsert k v l) = some v := by
  induction l with
  | nil => simp [dictInsert, dictLookup]
  | cons p rest ih =>
    obtain ⟨pk, pv⟩ := p
    by_cases h : pk = k
    · subst h
      simp [dictInsert, dictLookup]
    · simp [dictInsert, dictLookup, h, ih]

theorem dictLookup_insert_ne {α : Type} {k k' : String} (v : α) (l : List (String × α))
    (h : k' ≠ k) : dictLookup k (dictInsert k' v l) = dictLookup k l := by
  induction l with
  | nil => simp [dictInsert, dictLookup, h]
  | cons p rest ih =>
    obtain ⟨pk, pv⟩ := p
    by_cases hp : pk = k'
    · subst hp
      simp [dictInsert, dictLookup, h]
    · by_cases hk : pk = k
      · subst hk
        simp [dictInsert, dictLookup, hp]
      · simp [dictInsert, dictLookup, hp, hk, ih]

theorem mem_dictKeys_insert {α : Type} (x k : String) (v : α) (l : List (String × α)) :
    x ∈ dictKeys (dictInsert k v l) ↔ x = k ∨ x ∈ dictKeys l := by
  induction l with
  | nil => simp [dictInsert, dictKeys]
  | cons p rest ih =>
    obtain ⟨pk, pv⟩ := p
    by_cases hp : pk = k
    · subst hp
      simp only [dictInsert, if_true, dictKeys_cons]
      simp only [List.mem_cons]
      tauto
    · simp only [dictInsert, hp, if_false, dictKeys_cons, List.mem_cons, ih]
      tauto

theorem dictKeys_insert_congr {α β : Type} {l₁ : List (String × α)} {l₂ : List (String × β)}
    (k : String) (v₁ : α) (v₂ : β) (h : dictKeys l₁ = dictKeys l₂) :
    dictKeys (dictInsert k v₁ l₁) = dictKeys (dictInsert k v₂ l₂) := by
  induction l₁ generalizing l₂ with
  | nil =>
    have hl : l₂ = [] := by
      cases l₂ with
      | nil => rfl
      | cons q t => simp [dictKeys_nil, dictKeys_cons] at h
    subst hl
    simp [dictInsert, dictKeys]
  | cons p rest ih =>
    cases l₂ with
    | nil => simp [dictKeys_nil, dictKeys_cons] at h
    | cons q t =>
      obtain ⟨pk, pv⟩ := p
      obtain ⟨qk, qv⟩ := q
      simp only [dictKeys_cons, List.cons.injEq] at h
      obtain ⟨h1, h2⟩ := h
      subst h1
      by_cases hp : pk = k
      · subst hp
        simp [dictInsert, dictKeys_cons, h2]
      · simp only [dictInsert, hp, if_false, dictKeys_cons]
        rw [ih h2]

theorem dictLookup_isSome_iff {α : Type} (k : String) (l : List (String × α)) :
    (dictLookup k l).isSome ↔ k ∈ dictKeys l := by
  induction l with
  | nil => simp [dictLookup, dictKeys]
  | cons p rest ih =>
    obtain ⟨pk, pv⟩ := p
    by_cases hp : pk = k
    · subst hp
      simp [dictLookup, dictKeys_cons]
    · simp only [dictLookup, hp, if_false, dictKeys_cons, List.mem_cons, ih]
      constructor
      · exact Or.inr
      · rintro (h | h)
        · exact absurd h.symm hp
        · exact h

theorem dictLookup_remove_ne {α : Type} {k r : String} (l : List (String × α))
    (h : k ≠ r) : dictLookup k (dictRemove r l) = dictLookup k l := by
  induction l with
  | nil => simp [dictRemove]
  | cons p rest ih =>
    obtain ⟨pk, pv⟩ := p
    by_cases hp : pk = r
    · subst hp
      have hpk : ¬ pk = k := fun hh => h hh.symm
      simp [dictRemove, dictLookup, hpk, ih]
    · by_cases hk : pk = k
      · subst hk
        simp [dictRemove, dictLookup, hp]
      · simp [dictRemove, dictLookup, hp, hk, ih]

theorem dictLookup_remove_self {α : Type} (r : String) (l : List (String × α)) :
    dictLookup r (dictRemove r l) = none := by
  induction l with
  | nil => simp [dictRemove, dictLookup]
  | cons p rest ih =>
    obtain ⟨pk, pv⟩ := p
    by_cases hp : pk = r
    · subst hp
      simp [dictRemove, ih]
    · simp [dictRemove, dictLookup, hp, ih]

theorem mem_dictKeys_remove {α : Type} {x r : String} {l : List (String × α)}
    (h : x ∈ dictKeys (dictRemove r l)) : x ∈ dictKeys l := by
  induction l with
  | nil => simpa [dictRemove] using h
  | cons p rest ih =>
    obtain ⟨pk, pv⟩ := p
    by_cases hp : pk = r
    · subst hp
      simp only [dictRemove, if_true] at h
      simp [dictKeys_cons, ih h]
    · simp only [dictRemove, hp, if_false, dictKeys_cons, List.mem_cons] at h ⊢
      rcases h with h | h
      · exact Or.inl h
      · exact Or.inr (ih h)

theorem dictKeys_remove_nodup {α : Type} {r : String} {l : List (String × α)}
    (h : (dictKeys l).Nodup) : (dictKeys (dictRemove r l)).Nodup := by
  induction l with
  | nil => simpa [dictRemove] using h
  | cons p rest ih =>
    obtain ⟨pk, pv⟩ := p
    simp only [dictKeys_cons, List.nodup_cons] at h
    by_cases hp : pk = r
    · subst hp
      simp only [dictRemove, if_true]
      exact ih h.2
    · simp only [dictRemove, hp, if_false, dictKeys_cons, List.nodup_cons]
      exact ⟨fun hc => h.1 (mem_dictKeys_remove hc), ih h.2⟩

theorem dictUpdate_lookup_not_mem {α : Type} {k : String} (base : List (String × α))
    {upd : List (String × α)} (h : k ∉ dictKeys upd) :
    dictLookup k (dictUpdate base upd) = dictLookup k base := by
  induction upd generalizing base with
  | nil => simp [dictUpdate]
  | cons p rest ih =>
    simp only [dictKeys_cons, List.mem_cons, not_or] at h
    simp only [dictUpdate, List.foldl_cons]
    have := ih (dictInsert p.1 p.2 base) h.2
    simp only [dictUpdate] at this
    rw [this, dictLookup_insert_ne _ _ (fun hh => h.1 hh.symm)]

theorem dictUpdate_lookup_mem {α : Type} {k : String} {v : α} (base : List (String × α))
    {upd : List (String × α)} (hnd : (dictKeys upd).Nodup)
    (h : dictLookup k upd = some v) :
    dictLookup k (dictUpdate base upd) = some v := by
  induction upd generalizing base with
  | nil => simp [dictLookup] at h
  | cons p rest ih =>
    obtain ⟨pk, pv⟩ := p
    simp only [dictKeys_cons, List.nodup_cons] at hnd
    simp only [dictUpdate, List.foldl_cons]
    by_cases hp : pk = k
    · subst hp
      simp only [dictLookup, if_true] at h
      injection h with h
      subst h
      have hk : pk ∉ dictKeys rest := hnd.1
      have := dictUpdate_lookup_not_mem (dictInsert pk pv base) hk
      simp only [dictUpdate] at this
      rw [this, dictLookup_insert_self]
    · simp only [dictLookup, hp, if_false] at h
      have := ih (dictInsert pk pv base) hnd.2 h
      simp only [dictUpdate] at this
      exact this

theorem mem_dictKeys_update {α : Type} (k : String) (base upd : List (String × α)) :
    k ∈ dictKeys (dictUpdate base upd) ↔ k ∈ dictKeys base ∨ k ∈ dictKeys upd := by
  induction upd generalizing base with
  | nil => simp [dictUpdate, dictKeys]
  | cons p rest ih =>
    simp only [dictUpdate, List.foldl_cons, dictKeys_cons, List.mem_cons]
    have := ih (dictInsert p.1 p.2 base)
    simp only [dictUpdate] at this
    rw [this, mem_dictKeys_insert]
    tauto

theorem dictKeys_insert_nodup {α : Type} {k : String} {v : α} {l : List (String × α)}
    (h : (dictKeys l).Nodup) : (dictKeys (dictInsert k v l)).Nodup := by
  induction l with
  | nil => simp [dictInsert, dictKeys]
  | cons p rest ih =>
    obtain ⟨pk, pv⟩ := p
    simp only [dictKeys_cons, List.nodup_cons] at h
    by_cases hp : pk = k
    · subst hp
      simp only [dictInsert, if_true, dictKeys_cons, List.nodup_cons]
      exact ⟨h.1, h.2⟩
    · simp only [dictInsert, hp, if_false, dictKeys_cons, List.nodup_cons]
      refine ⟨fun hc => ?_, ih h.2⟩
      rcases (mem_dictKeys_insert pk k v rest).mp hc with h' | h'
      · exact hp h'
      · exact h.1 h'

/-- The description that `register` attaches to an attribute's output
field: the parsed doc entry for the name when the value is a primitive
non-list value, and nothing otherwise (the source passes `description`
only to the primitive scalar field constructor). -/
def docDescription (pmap : List (String × String)) (k : String) : PyVal → Option String
  | .scalar ty =>
    if primitiveTypeNames.contains ty.name = true then dictLookup k pmap else none
  | .list _ => none

theorem singleton_list_inj {a b : String} (h : [a] = [b]) : a = b := by
  simpa using congrArg List.headI h

/-! ### Classification lemmas -/

theorem classifyAttr_required {m : Mapper} {pmap : List (String × String)}
    {req : List String} {key : String} {val : PyVal} {fo : OutField} {fi : InField}
    (h : classifyAttr m pmap req key val = .ok (fo, fi)) :
    fo.required = req.contains key ∧ fi.required = req.contains key := by
  unfold classifyAttr at h
  rcases val with ty | elems
  · dsimp only at h
    by_cases hp : primitiveTypeNames.contains ty.name = true
    · rw [if_pos hp] at h
      simp only [Except.ok.injEq, Prod.mk.injEq] at h
      obtain ⟨rfl, rfl⟩ := h
      exact ⟨rfl, rfl⟩
    · rw [if_neg hp] at h
      cases hf : dictLookup ty.name m.flaskrp_mapping with
      | none => rw [hf] at h; cases h
      | some pm =>
        rw [hf] at h
        cases hmm : dictLookup ty.name m.mm_mapping with
        | none => rw [hmm] at h; cases h
        | some ps =>
          rw [hmm] at h
          simp only [Except.ok.injEq, Prod.mk.injEq] at h
          obtain ⟨rfl, rfl⟩ := h
          exact ⟨rfl, rfl⟩
  · cases elems with
    | nil => cases h
    | cons le esrest =>
      dsimp only at h
      by_cases hall : ((le :: esrest).all fun e => isinstance e le.type) = true
      · rw [if_pos hall] at h
        by_cases hp : primitiveTypeNames.contains (le.typeName) = true
        · rw [if_pos hp] at h
          simp only [Except.ok.injEq, Prod.mk.injEq] at h
          obtain ⟨rfl, rfl⟩ := h
          exact ⟨rfl, rfl⟩
        · rw [if_neg hp] at h
          cases hf : dictLookup le.typeName m.flaskrp_mapping with
          | none => rw [hf] at h; cases h
          | some pm =>
            rw [hf] at h
            cases hmm : dictLookup le.typeName m.mm_mapping with
            | none => rw [hmm] at h; cases h
            | some ps =>
              rw [hmm] at h
              simp only [Except.ok.injEq, Prod.mk.injEq] at h
              obtain ⟨rfl, rfl⟩ := h
              exact ⟨rfl, rfl⟩
      · rw [if_neg hall] at h
        cases h

theorem classifyAttr_description {m : Mapper} {pmap : List (String × String)}
    {req : List String} {key : String} {val : PyVal} {fo : OutField} {fi : InField}
    (h : classifyAttr m pmap req key val = .ok (fo, fi)) :
    fo.description = docDescription pmap key val := by
  unfold classifyAttr at h
  rcases val with ty | elems
  · dsimp only at h
    by_cases hp : primitiveTypeNames.contains ty.name = true
    · rw [if_pos hp] at h
      simp only [Except.ok.injEq, Prod.mk.injEq] at h
      obtain ⟨rfl, rfl⟩ := h
      simp only [docDescription]
      rw [if_pos hp]
    · rw [if_neg hp] at h
      cases hf : dictLookup ty.name m.flaskrp_mapping with
      | none => rw [hf] at h; cases h
      | some pm =>
        rw [hf] at h
        cases hmm : dictLookup ty.name m.mm_mapping with
        | none => rw [hmm] at h; cases h
        | some ps =>
          rw [hmm] at h
          simp only [Except.ok.injEq, Prod.mk.injEq] at h
          obtain ⟨rfl, rfl⟩ := h
          simp only [docDescription]
          rw [if_neg hp]
  · cases elems with
    | nil => cases h
    | cons le esrest =>
      dsimp only at h
      by_cases hall : ((le :: esrest).all fun e => isinstance e le.type) = true
      · rw [if_pos hall] at h
        by_cases hp : primitiveTypeNames.contains (le.typeName) = true
        · rw [if_pos hp] at h
          simp only [Except.ok.injEq, Prod.mk.injEq] at h
          obtain ⟨rfl, rfl⟩ := h
          rfl
        · rw [if_neg hp] at h
          cases hf : dictLookup le.typeName m.flaskrp_mapping with
          | none => rw [hf] at h; cases h
          | some pm =>
            rw [hf] at h
            cases hmm : dictLookup le.typeName m.mm_mapping with
            | none => rw [hmm] at h; cases h
            | some ps =>
              rw [hmm] at h
              simp only [Except.ok.injEq, Prod.mk.injEq] at h
              obtain ⟨rfl, rfl⟩ := h
              rfl
      · rw [if_neg hall] at h
        cases h

theorem classifyAttr_error_indep {m : Mapper} (p₁ p₂ : List (String × String))
    {req : List String} {k : String} {v : PyVal} {e : MErr} :
    classifyAttr m p₁ req k v = .error e ↔ classifyAttr m p₂ req k v = .error e := by
  unfold classifyAttr
  rcases v with ty | elems
  · dsimp only
    by_cases hp : primitiveTypeNames.contains ty.name = true
    · rw [if_pos hp]
      rw [if_pos hp]
      constructor <;> (intro h; cases h)
    · rw [if_neg hp]
      rw [if_neg hp]
  · cases elems with
    | nil => exact Iff.rfl
    | cons le esrest =>
      dsimp only
      by_cases hall : ((le :: esrest).all fun e => isinstance e le.type) = true
      · rw [if_pos hall]
      · rw [if_neg hall]

/-! ### Attribute-loop lemmas -/

theorem buildFields_error_mem {m : Mapper} {pmap : List (String × String)}
    {req : List String} {attrs : List (String × PyVal)} {k : String} {v : PyVal} {e : MErr}
    (hmem : (k, v) ∈ attrs) (hc : classifyAttr m pmap req k v = .error e)
    (oA : List (String × OutField)) (iA : List (String × InField)) :
    ∃ e', buildFields m pmap req attrs oA iA = .error e' := by
  induction attrs generalizing oA iA with
  | nil => cases hmem
  | cons p rest ih =>
    obtain ⟨pk, pv⟩ := p
    rcases List.mem_cons.mp hmem with hh | hh
    · simp only [Prod.mk.injEq] at hh
      obtain ⟨rfl, rfl⟩ := hh
      exact ⟨e, by simp only [buildFields, hc]⟩
    · cases hcc : classifyAttr m pmap req pk pv with
      | error e'' => exact ⟨e'', by simp only [buildFields, hcc]⟩
      | ok r =>
        obtain ⟨fo, fi⟩ := r
        have := ih hh (dictInsert pk fo oA) (dictInsert pk fi iA)
        simpa only [buildFields, hcc] using this

theorem buildFields_error_first {m : Mapper} {pmap : List (String × String)}
    {req : List String} :
    ∀ (pre : List (String × PyVal)) {k : String} {v : PyVal} {e : MErr}
      {rest : List (String × PyVal)} (oA : List (String × OutField))
      (iA : List (String × InField)),
      (∀ p ∈ pre, ∃ r, classifyAttr m pmap req p.1 p.2 = .ok r) →
      classifyAttr m pmap req k v = .error e →
      buildFields m pmap req (pre ++ (k, v) :: rest) oA iA = .error e := by
  intro pre
  induction pre with
  | nil =>
    intro k v e rest oA iA _ hc
    simp only [List.nil_append, buildFields, hc]
  | cons p pre' ih =>
    intro k v e rest oA iA hok hc
    obtain ⟨pk, pv⟩ := p
    obtain ⟨⟨fo, fi⟩, hr⟩ := hok (pk, pv) (List.mem_cons_self _ _)
    simp only [List.cons_append, buildFields, hr]
    exact ih _ _ (fun q hq => hok q (List.mem_cons_of_mem _ hq)) hc

theorem buildFields_ok_classify {m : Mapper} {pmap : List (String × String)}
    {req : List String} {attrs : List (String × PyVal)}
    {oA : List (String × OutField)} {iA : List (String × InField)}
    {od : List (String × OutField)} {idt : List (String × InField)}
    (h : buildFields m pmap req attrs oA iA = .ok (od, idt)) :
    ∀ k v, (k, v) ∈ attrs → ∃ r, classifyAttr m pmap req k v = .ok r := by
  induction attrs generalizing oA iA with
  | nil => intro k v hmem; cases hmem
  | cons p rest ih =>
    intro k v hmem
    obtain ⟨pk, pv⟩ := p
    cases hcc : classifyAttr m pmap req pk pv with
    | error e => rw [buildFields, hcc] at h; cases h
    | ok r =>
      obtain ⟨fo, fi⟩ := r
      rw [buildFields, hcc] at h
      rcases List.mem_cons.mp hmem with hh | hh
      · simp only [Prod.mk.injEq] at hh
        obtain ⟨rfl, rfl⟩ := hh
        exact ⟨(fo, fi), hcc⟩
      · exact ih h _ _ hh

theorem buildFields_lookup_frozen {m : Mapper} {pmap : List (String × String)}
    {req : List String} {attrs : List (String × PyVal)} {k : String}
    {oA : List (String × OutField)} {iA : List (String × InField)}
    {od : List (String × OutField)} {idt : List (String × InField)}
    (hk : k ∉ attrs.map Prod.fst)
    (h : buildFields m pmap req attrs oA iA = .ok (od, idt)) :
    dictLookup k od = dictLookup k oA ∧ dictLookup k idt = dictLookup k iA := by
  induction attrs generalizing oA iA with
  | nil =>
    rw [buildFields] at h
    simp only [Except.ok.injEq, Prod.mk.injEq] at h
    obtain ⟨rfl, rfl⟩ := h
    exact ⟨rfl, rfl⟩
  | cons p rest ih =>
    obtain ⟨pk, pv⟩ := p
    simp only [List.map_cons, List.mem_cons, not_or] at hk
    cases hcc : classifyAttr m pmap req pk pv with
    | error e => rw [buildFields, hcc] at h; cases h
    | ok r =>
      obtain ⟨fo, fi⟩ := r
      rw [buildFields, hcc] at h
      have := ih hk.2 h
      rw [dictLookup_insert_ne _ _ (fun hh => hk.1 hh.symm),
          dictLookup_insert_ne _ _ (fun hh => hk.1 hh.symm)] at this
      exact this

theorem buildFields_lookup_mem {m : Mapper} {pmap : List (String × String)}
    {req : List String} {attrs : List (String × PyVal)} {k : String} {v : PyVal}
    {oA : List (String × OutField)} {iA : List (String × InField)}
    {od : List (String × OutField)} {idt : List (String × InField)}
    {fo : OutField} {fi : InField}
    (hnd : (attrs.map Prod.fst).Nodup)
    (h : buildFields m pmap req attrs oA iA = .ok (od, idt))
    (hmem : (k, v) ∈ attrs)
    (hc : classifyAttr m pmap req k v = .ok (fo, fi)) :
    dictLookup k od = some fo ∧ dictLookup k idt = some fi := by
  induction attrs generalizing oA iA with
  | nil => cases hmem
  | cons p rest ih =>
    obtain ⟨pk, pv⟩ := p
    simp only [List.map_cons, List.nodup_cons] at hnd
    rcases List.mem_cons.mp hmem with hh | hh
    · simp only [Prod.mk.injEq] at hh
      obtain ⟨rfl, rfl⟩ := hh
      rw [buildFields, hc] at h
      have := buildFields_lookup_frozen hnd.1 h
      rw [dictLookup_insert_self, dictLookup_insert_self] at this
      exact this
    · cases hcc : classifyAttr m pmap req pk pv with
      | error e => rw [buildFields, hcc] at h; cases h
      | ok r =>
        obtain ⟨fo', fi'⟩ := r
        rw [buildFields, hcc] at h
        exact ih hnd.2 h hh

theorem buildFields_mem_keys {m : Mapper} {pmap : List (String × String)}
    {req : List String} {attrs : List (String × PyVal)}
    {oA : List (String × OutField)} {iA : List (String × InField)}
    {od : List (String × OutField)} {idt : List (String × InField)}
    (h : buildFields m pmap req attrs oA iA = .ok (od, idt)) (k : String) :
    (k ∈ dictKeys od ↔ k ∈ attrs.map Prod.fst ∨ k ∈ dictKeys oA) ∧
    (k ∈ dictKeys idt ↔ k ∈ attrs.map Prod.fst ∨ k ∈ dictKeys iA) := by
  induction attrs generalizing oA iA with
  | nil =>
    rw [buildFields] at h
    simp only [Except.ok.injEq, Prod.mk.injEq] at h
    obtain ⟨rfl, rfl⟩ := h
    simp
  | cons p rest ih =>
    obtain ⟨pk, pv⟩ := p
    cases hcc : classifyAttr m pmap req pk pv with
    | error e => rw [buildFields, hcc] at h; cases h
    | ok r =>
      obtain ⟨fo, fi⟩ := r
      rw [buildFields, hcc] at h
      have := ih h
      rw [mem_dictKeys_insert, mem_dictKeys_insert] at this
      simp only [List.map_cons, List.mem_cons]
      constructor
      · rw [this.1]; tauto
      · rw [this.2]; tauto

theorem buildFields_nodup {m : Mapper} {pmap : List (String × String)}
    {req : List String} {attrs : List (String × PyVal)}
    {oA : List (String × OutField)} {iA : List (String × InField)}
    {od : List (String × OutField)} {idt : List (String × InField)}
    (hoA : (dictKeys oA).Nodup) (hiA : (dictKeys iA).Nodup)
    (h : buildFields m pmap req attrs oA iA = .ok (od, idt)) :
    (dictKeys od).Nodup ∧ (dictKeys idt).Nodup := by
  induction attrs generalizing oA iA with
  | nil =>
    rw [buildFields] at h
    simp only [Except.ok.injEq, Prod.mk.injEq] at h
    obtain ⟨rfl, rfl⟩ := h
    exact ⟨hoA, hiA⟩
  | cons p rest ih =>
    obtain ⟨pk, pv⟩ := p
    cases hcc : classifyAttr m pmap req pk pv with
    | error e => rw [buildFields, hcc] at h; cases h
    | ok r =>
      obtain ⟨fo, fi⟩ := r
      rw [buildFields, hcc] at h
      exact ih (dictKeys_insert_nodup hoA) (dictKeys_insert_nodup hiA) h

theorem buildFields_error_indep {m : Mapper} (p₁ p₂ : List (String × String))
    {req : List String} {attrs : List (String × PyVal)}
    {oA₁ oA₂ : List (String × OutField)} {iA₁ iA₂ : List (String × InField)} {e : MErr} :
    buildFields m p₁ req attrs oA₁ iA₁ = .error e ↔
      buildFields m p₂ req attrs oA₂ iA₂ = .error e := by
  induction attrs generalizing oA₁ oA₂ iA₁ iA₂ with
  | nil => simp [buildFields]
  | cons p rest ih =>
    obtain ⟨pk, pv⟩ := p
    cases hc1 : classifyAttr m p₁ req pk pv with
    | error e' =>
      have hc2 : classifyAttr m p₂ req pk pv = .error e' :=
        (classifyAttr_error_indep p₁ p₂).mp hc1
      rw [buildFields, buildFields, hc1, hc2]
    | ok r =>
      obtain ⟨fo, fi⟩ := r
      cases hc2 : classifyAttr m p₂ req pk pv with
      | error e' =>
        have := (classifyAttr_error_indep p₂ p₁).mp hc2
        rw [this] at hc1
        cases hc1
      | ok r' =>
        obtain ⟨fo', fi'⟩ := r'
        rw [buildFields, buildFields, hc1, hc2]
        exact ih

/-! ### Registration lemmas -/

theorem register_cases (m : Mapper) (obj : DomainObj) (req : List String) :
    ((register m obj req).1 = m ∧ (register m obj req).2 ≠ none) ∨
    ((register m obj req).2 = none ∧ ∃ fm ms,
      (register m obj req).1 =
        ⟨dictInsert obj.clsName fm m.flaskrp_mapping,
         dictInsert obj.clsName ms m.mm_mapping⟩) := by
  cases hbf : buildFields m (parse_doc_string obj.initDoc) req obj.attrs [] [] with
  | error e => left; constructor <;> simp [register, hbf]
  | ok p =>
    obtain ⟨fdict, mdict⟩ := p
    by_cases hlen : obj.bases.length > 1
    · left; constructor <;> simp [register, hbf, hlen]
    · cases hbs : obj.bases with
      | nil => left; constructor <;> simp [register, hbf, hlen, hbs]
      | cons b rest =>
        have hrest : rest = [] := by
          rw [hbs] at hlen
          simp only [List.length_cons, gt_iff_lt, not_lt] at hlen
          cases rest with
          | nil => rfl
          | cons x t => simp only [List.length_cons] at hlen; omega
        subst hrest
        by_cases hob : b = "object"
        · subst hob
          right
          refine ⟨by simp [register, hbf, hlen, hbs],
            ⟨obj.clsName, fdict⟩, ⟨dictRemove "make_object" mdict, obj.clsName⟩,
            by simp [register, hbf, hlen, hbs]⟩
        · cases hf : dictLookup b m.flaskrp_mapping with
          | none => left; constructor <;> simp [register, hbf, hlen, hbs, hob, hf]
          | some pm =>
            cases hmm : dictLookup b m.mm_mapping with
            | none => left; constructor <;> simp [register, hbf, hlen, hbs, hob, hf, hmm]
            | some ps =>
              right
              refine ⟨by simp [register, hbf, hlen, hbs, hob, hf, hmm],
                ⟨obj.clsName, dictUpdate pm.fields fdict⟩,
                ⟨dictUpdate ps.fields (dictRemove "make_object" mdict), obj.clsName⟩,
                by simp [register, hbf, hlen, hbs, hob, hf, hmm]⟩

theorem register_ok_inv {m : Mapper} {obj : DomainObj} {req : List String} {m' : Mapper}
    (h : register m obj req = (m', none)) :
    ∃ fdict mdict b,
      buildFields m (parse_doc_string obj.initDoc) req obj.attrs [] [] = .ok (fdict, mdict) ∧
      obj.bases = [b] ∧
      ((b = "object" ∧
        m' = ⟨dictInsert obj.clsName ⟨obj.clsName, fdict⟩ m.flaskrp_mapping,
              dictInsert obj.clsName ⟨dictRemove "make_object" mdict, obj.clsName⟩
                m.mm_mapping⟩) ∨
       (b ≠ "object" ∧ ∃ pm ps,
        dictLookup b m.flaskrp_mapping = some pm ∧
        dictLookup b m.mm_mapping = some ps ∧
        m' = ⟨dictInsert obj.clsName ⟨obj.clsName, dictUpdate pm.fields fdict⟩ m.flaskrp_mapping,
              dictInsert obj.clsName
                ⟨dictUpdate ps.fields (dictRemove "make_object" mdict), obj.clsName⟩
                m.mm_mapping⟩)) := by
  cases hbf : buildFields m (parse_doc_string obj.initDoc) req obj.attrs [] [] with
  | error e => simp [register, hbf] at h
  | ok p =>
    obtain ⟨fdict, mdict⟩ := p
    by_cases hlen : obj.bases.length > 1
    · simp [register, hbf, hlen] at h
    · cases hbs : obj.bases with
      | nil => simp [register, hbf, hlen, hbs] at h
      | cons b rest =>
        have hrest : rest = [] := by
          rw [hbs] at hlen
          simp only [List.length_cons, gt_iff_lt, not_lt] at hlen
          cases rest with
          | nil => rfl
          | cons x t => simp only [List.length_cons] at hlen; omega
        subst hrest
        by_cases hob : b = "object"
        · subst hob
          have hr : register m obj req =
              (⟨dictInsert obj.clsName ⟨obj.clsName, fdict⟩ m.flaskrp_mapping,
                dictInsert obj.clsName ⟨dictRemove "make_object" mdict, obj.clsName⟩
                  m.mm_mapping⟩, none) := by
            simp [register, hbf, hlen, hbs]
          rw [hr] at h
          have h1 := congrArg Prod.fst h
          exact ⟨fdict, mdict, "object", rfl, rfl, Or.inl ⟨rfl, h1.symm⟩⟩
        · cases hf : dictLookup b m.flaskrp_mapping with
          | none => simp [register, hbf, hlen, hbs, hob, hf] at h
          | some pm =>
            cases hmm : dictLookup b m.mm_mapping with
            | none => simp [register, hbf, hlen, hbs, hob, hf, hmm] at h
            | some ps =>
              have hr : register m obj req =
                  (⟨dictInsert obj.clsName ⟨obj.clsName, dictUpdate pm.fields fdict⟩
                      m.flaskrp_mapping,
                    dictInsert obj.clsName
                      ⟨dictUpdate ps.fields (dictRemove "make_object" mdict), obj.clsName⟩
                      m.mm_mapping⟩, none) := by
                simp [register, hbf, hlen, hbs, hob, hf, hmm]
              rw [hr] at h
              have h1 := congrArg Prod.fst h
              exact ⟨fdict, mdict, b, rfl, rfl,
                Or.inr ⟨hob, pm, ps, hf, hmm, h1.symm⟩⟩

theorem register_snd_doc_indep (m : Mapper) (c : String) (bs : List String)
    (a : List (String × PyVal)) (d₁ d₂ : Option String) (req : List String) :
    (register m ⟨c, bs, a, d₁⟩ req).2 = (register m ⟨c, bs, a, d₂⟩ req).2 := by
  cases hbf : buildFields m (parse_doc_string d₁) req a [] [] with
  | error e =>
    have hbf2 : buildFields m (parse_doc_string d₂) req a [] [] = .error e :=
      (buildFields_error_indep _ _).mp hbf
    simp [register, hbf, hbf2]
  | ok p =>
    obtain ⟨fd₁, md₁⟩ := p
    have hbf2 : ∃ q, buildFields m (parse_doc_string d₂) req a [] [] = .ok q := by
      cases h2 : buildFields m (parse_doc_string d₂) req a [] [] with
      | error e =>
        have := (@buildFields_error_indep m (parse_doc_string d₂) (parse_doc_string d₁)
          req a [] [] [] [] e).mp h2
        rw [this] at hbf
        cases hbf
      | ok q => exact ⟨q, rfl⟩
    obtain ⟨⟨fd₂, md₂⟩, h2⟩ := hbf2
    by_cases hlen : bs.length > 1
    · simp [register, hbf, h2, hlen]
    · cases bs with
      | nil => simp [register, hbf, h2, hlen]
      | cons b rest =>
        have hrest : rest = [] := by
          simp only [List.length_cons, gt_iff_lt, not_lt] at hlen
          cases rest with
          | nil => rfl
          | cons x t => simp only [List.length_cons] at hlen; omega
        subst hrest
        by_cases hob : b = "object"
        · subst hob; simp [register, hbf, h2, hlen]
        · cases hf : dictLookup b m.flaskrp_mapping with
          | none => simp [register, hbf, h2, hlen, hob, hf]
          | some pm =>
            cases hmm : dictLookup b m.mm_mapping with
            | none => simp [register, hbf, h2, hlen, hob, hf, hmm]
            | some ps => simp [register, hbf, h2, hlen, hob, hf, hmm]

/-! ### Concrete domain objects used in witnesses and counterexamples -/

/-- An object with a single empty-list attribute. -/
def objEmptyLst : DomainObj := ⟨"E", ["object"], [("lst", .list [])], none⟩

/-- An object whose first attribute has an unregistered type and whose
second attribute is an empty list. -/
def objWeirdThenEmpty : DomainObj :=
  ⟨"W2", ["object"], [("w", .scalar tyWeird), ("lst", .list [])], none⟩

/-- An object whose second attribute is an empty list, after a
well-typed string attribute. -/
def objStrThenEmpty : DomainObj :=
  ⟨"SE", ["object"], [("x", .scalar tyStr), ("lst", .list [])], none⟩

/-- An object with a list attribute `[1, True]`: an `int` first and a
`bool` (a subclass of `int`) second. -/
def objIntBoolList : DomainObj :=
  ⟨"Mix", ["object"], [("l", .list [.scalar tyInt, .scalar tyBool])], none⟩

/-- A root class `A` with one string attribute `x`. -/
def objA : DomainObj := ⟨"A", ["object"], [("x", .scalar tyStr)], none⟩

/-- A class `B` whose declared parent is `A`, adding attribute `y`. -/
def objB : DomainObj := ⟨"B", ["A"], [("y", .scalar tyStr)], none⟩

/-- An object with a single attribute of an unregistered type. -/
def objWeird1 : DomainObj := ⟨"U", ["object"], [("u", .scalar tyWeird)], none⟩

/-- An object whose constructor doc documents its list-valued field `f`. -/
def objDocList : DomainObj :=
  ⟨"D", ["object"], [("f", .list [.scalar tyStr])], some ":f: hello"⟩

/-- An object whose constructor doc documents its string field `g`. -/
def objDocStr : DomainObj :=
  ⟨"DS", ["object"], [("g", .scalar tyStr)], some ":g: gdesc"⟩

/-- A domain class that happens to be named `NoneType`. -/
def objNoneType : DomainObj := ⟨"NoneType", ["object"], [("z", .scalar tyStr)], none⟩

/-- An object carrying an unset (`None`) attribute. -/
def objWithNone : DomainObj := ⟨"N", ["object"], [("n", .scalar tyNone)], none⟩

/-- The registry after registering `objA` with `required_lst=["x"]`. -/
def mapperA : Mapper := (register Mapper.init objA ["x"]).1

/-- The registry after additionally registering `objB` with no
required fields. -/
def mapperAB : Mapper := (register mapperA objB []).1

/-! ### Further registration helpers -/

theorem classifyAttr_hetero_iff (m : Mapper) (pmap : List (String × String))
    (req : List String) (k : String) (e : PyVal) (es : List PyVal) :
    classifyAttr m pmap req k (.list (e :: es)) = .error .heterogeneousList ↔
      ((e :: es).all fun x => isinstance x e.type) = false := by
  unfold classifyAttr
  dsimp only
  by_cases hall : ((e :: es).all fun x => isinstance x e.type) = true
  · rw [if_pos hall]
    constructor
    · intro h
      by_cases hp : primitiveTypeNames.contains e.typeName = true
      · rw [if_pos hp] at h; cases h
      · rw [if_neg hp] at h
        cases hf : dictLookup e.typeName m.flaskrp_mapping with
        | none => rw [hf] at h; simp at h
        | some pm =>
          rw [hf] at h
          cases hmm : dictLookup e.typeName m.mm_mapping with
          | none => rw [hmm] at h; simp at h
          | some ps => rw [hmm] at h; cases h
    · intro h
      rw [h] at hall
      cases hall
  · rw [if_neg hall]
    simp only [Bool.not_eq_true] at hall
    exact ⟨fun _ => hall, fun _ => rfl⟩

theorem register_first_attr_error {m : Mapper} {obj : DomainObj} {req : List String}
    {k : String} {v : PyVal} {rest : List (String × PyVal)} {e : MErr}
    (hattrs : obj.attrs = (k, v) :: rest)
    (hc : classifyAttr m (parse_doc_string obj.initDoc) req k v = .error e) :
    register m obj req = (m, some e) := by
  have hbf : buildFields m (parse_doc_string obj.initDoc) req obj.attrs [] [] = .error e := by
    rw [hattrs]
    simp only [buildFields, hc]
  simp [register, hbf]

theorem register_prefix_ok_error {m : Mapper} {obj : DomainObj} {req : List String}
    {pre : List (String × PyVal)} {k : String} {v : PyVal}
    {rest : List (String × PyVal)} {e : MErr}
    (hattrs : obj.attrs = pre ++ (k, v) :: rest)
    (hok : ∀ p ∈ pre, ∃ r, classifyAttr m (parse_doc_string obj.initDoc) req p.1 p.2 = .ok r)
    (hc : classifyAttr m (parse_doc_string obj.initDoc) req k v = .error e) :
    register m obj req = (m, some e) := by
  have hbf : buildFields m (parse_doc_string obj.initDoc) req obj.attrs [] [] = .error e := by
    rw [hattrs]
    exact buildFields_error_first pre _ _ hok hc
  simp [register, hbf]

theorem register_attr_error_state {m : Mapper} {obj : DomainObj} {req : List String}
    {k : String} {v : PyVal} {e : MErr}
    (hmem : (k, v) ∈ obj.attrs)
    (hc : classifyAttr m (parse_doc_string obj.initDoc) req k v = .error e) :
    (register m obj req).2.isSome ∧ (register m obj req).1 = m := by
  obtain ⟨e', hbf⟩ := buildFields_error_mem hmem hc [] []
  constructor <;> simp [register, hbf]

/-! ### Claim theorems -/

/-- C1: `register` is atomic: whenever it raises any error (empty list,
heterogeneous list, unknown type, multiple inheritance, unregistered
parent), the registry mappings are left completely unchanged — no entry
is added, removed or modified for any class name, so a prior
registration under the same name is left intact. -/
theorem register_atomic (m : Mapper) (obj : DomainObj) (req : List String) (e : MErr)
    (h : (register m obj req).2 = some e) :
    (register m obj req).1 = m ∧
    ∀ c, dictLookup c (register m obj req).1.flaskrp_mapping = dictLookup c m.flaskrp_mapping ∧
      dictLookup c (register m obj req).1.mm_mapping = dictLookup c m.mm_mapping := by
  rcases register_cases m obj req with ⟨h1, -⟩ | ⟨h2, -⟩
  · exact ⟨h1, fun c => by rw [h1]; exact ⟨rfl, rfl⟩⟩
  · rw [h2] at h
    cases h

/-- Witness for C1 at a concrete failing registration. -/
theorem register_atomic_witness :
    (register Mapper.init objEmptyLst []).2 = some MErr.emptyList ∧
    (register Mapper.init objEmptyLst []).1 = Mapper.init :=
  ⟨rfl, (register_atomic Mapper.init objEmptyLst [] MErr.emptyList rfl).1⟩

/-- C2 counterexample: the list `[1, True]` mixes two distinct runtime
types (`int`, then `bool`), yet `register` succeeds with no error at
all, because the source checks `isinstance(elem, type(first))`, which
accepts instances of subclasses, and `bool` subclasses `int`. -/
theorem hetero_exact_type_cex :
    PyVal.typeName (.scalar tyBool) ≠ PyVal.typeName (.scalar tyInt) ∧
    objIntBoolList.attrs = [("l", .list [.scalar tyInt, .scalar tyBool])] ∧
    (register Mapper.init objIntBoolList []).2 = none :=
  ⟨by decide, rfl, rfl⟩

/-- C2 amended: `register` raises the heterogeneous-list error for a
non-empty list attribute exactly when some element fails Python's
`isinstance` test against the first element's runtime type (instances
of subclasses are accepted, so a list mixing two distinct runtime types
is rejected only when later elements are not instances of the first
element's type); when such a list is the object's first attribute,
`register` fails with that error and changes nothing. -/
theorem hetero_list_isinstance :
    (∀ (m : Mapper) (pmap : List (String × String)) (req : List String) (k : String)
       (e : PyVal) (es : List PyVal),
      classifyAttr m pmap req k (.list (e :: es)) = .error .heterogeneousList ↔
        ((e :: es).all fun x => isinstance x e.type) = false) ∧
    (∀ (m : Mapper) (obj : DomainObj) (req : List String) (k : String) (e : PyVal)
       (es : List PyVal) (rest : List (String × PyVal)),
      obj.attrs = (k, .list (e :: es)) :: rest →
      ((e :: es).all fun x => isinstance x e.type) = false →
      register m obj req = (m, some .heterogeneousList)) := by
  refine ⟨classifyAttr_hetero_iff, ?_⟩
  intro m obj req k e es rest hattrs hfalse
  exact register_first_attr_error hattrs
    ((classifyAttr_hetero_iff m (parse_doc_string obj.initDoc) req k e es).mpr hfalse)

/-- Witness for C2 amended at a genuinely heterogeneous list. -/
theorem hetero_list_isinstance_witness :
    register Mapper.init
      ⟨"HL", ["object"], [("l", .list [.scalar tyBool, .scalar tyStr])], none⟩ [] =
      (Mapper.init, some .heterogeneousList) :=
  hetero_list_isinstance.2 Mapper.init
    ⟨"HL", ["object"], [("l", .list [.scalar tyBool, .scalar tyStr])], none⟩
    [] "l" (.scalar tyBool) [.scalar tyStr] [] rfl (by decide)

/-- C4 counterexample: registering `B` (declared parent `A`) before `A`
does fail, but the exception is a raw `KeyError` from the registry
subscript `self.flaskrp_mapping[bases[0].__name__]`, not a
`MappingError`. -/
theorem unregistered_parent_cex :
    register Mapper.init objB [] = (Mapper.init, some (.keyError "A")) ∧
    (MErr.keyError "A").isMappingError = false :=
  ⟨rfl, rfl⟩

/-- C4 amended: for an object whose attributes all classify and whose
single declared parent is neither the root type nor a registered name,
`register` fails — by raising a `KeyError` from the registry lookup
rather than a `MappingError` — and the registry is unchanged; in
particular registering a child before its parent fails this way. -/
theorem unregistered_parent_keyerror (m : Mapper) (obj : DomainObj) (req : List String)
    (b : String) (fdict : List (String × OutField)) (mdict : List (String × InField))
    (hbf : buildFields m (parse_doc_string obj.initDoc) req obj.attrs [] [] = .ok (fdict, mdict))
    (hb : obj.bases = [b]) (hob : b ≠ "object")
    (hlook : dictLookup b m.flaskrp_mapping = none) :
    register m obj req = (m, some (.keyError b)) ∧
    (MErr.keyError b).isMappingError = false := by
  refine ⟨?_, rfl⟩
  simp [register, hbf, hb, hob, hlook]

/-- Witness for C4 amended: `B` before `A` on an empty registry. -/
theorem unregistered_parent_keyerror_witness :
    register Mapper.init objB [] = (Mapper.init, some (.keyError "A")) ∧
    (MErr.keyError "A").isMappingError = false :=
  unregistered_parent_keyerror Mapper.init objB [] "A"
    [("y", ⟨.prim "str", some (.scalar tyStr), none, false⟩)]
    [("y", ⟨.prim "str", false⟩)] rfl rfl (by decide) rfl

/-- C7 counterexample: an object that has an empty-list attribute but
whose earlier attribute already fails classification raises the
unknown-type error, not `EmptyListError`. -/
theorem empty_list_cex :
    (("lst", PyVal.list []) ∈ objWeirdThenEmpty.attrs) ∧
    (register Mapper.init objWeirdThenEmpty []).2 = some (.unknownType "Weird") ∧
    some (MErr.unknownType "Weird") ≠ some MErr.emptyList :=
  ⟨List.mem_cons_of_mem _ (List.mem_cons_self _ _), rfl, by decide⟩

/-- C7 amended: `register` on an object with an empty-list attribute
always fails and never stores anything; the error is `EmptyListError`
whenever every attribute preceding the empty list classifies
successfully (in particular whenever the empty list is the only failing
attribute). -/
theorem empty_list_always_fails :
    (∀ (m : Mapper) (obj : DomainObj) (req : List String) (k : String),
      (k, PyVal.list []) ∈ obj.attrs →
      (register m obj req).2.isSome ∧ (register m obj req).1 = m) ∧
    (∀ (m : Mapper) (obj : DomainObj) (req : List String) (pre : List (String × PyVal))
       (k : String) (rest : List (String × PyVal)),
      obj.attrs = pre ++ (k, PyVal.list []) :: rest →
      (∀ p ∈ pre, ∃ r, classifyAttr m (parse_doc_string obj.initDoc) req p.1 p.2 = .ok r) →
      register m obj req = (m, some .emptyList)) := by
  constructor
  · intro m obj req k hmem
    exact register_attr_error_state hmem rfl
  · intro m obj req pre k rest hattrs hok
    exact register_prefix_ok_error hattrs hok rfl

/-- Witness for C7 amended at two concrete objects. -/
theorem empty_list_always_fails_witness :
    ((register Mapper.init objEmptyLst []).2.isSome ∧
      (register Mapper.init objEmptyLst []).1 = Mapper.init) ∧
    register Mapper.init objStrThenEmpty [] = (Mapper.init, some .emptyList) := by
  constructor
  · exact empty_list_always_fails.1 Mapper.init objEmptyLst [] "lst"
      (List.mem_singleton.mpr rfl)
  · refine empty_list_always_fails.2 Mapper.init objStrThenEmpty []
      [("x", .scalar tyStr)] "lst" [] rfl ?_
    intro p hp
    rw [List.mem_singleton] at hp
    subst hp
    exact ⟨_, rfl⟩

/-- C10 counterexample: `None`'s type name `NoneType` can collide with a
registered class of that name; after registering a domain class named
`NoneType`, an object with a `None`-valued attribute registers
successfully instead of failing with the unknown-type error. -/
theorem none_attr_cex :
    PyVal.typeName (.scalar tyNone) = "NoneType" ∧
    objWithNone.attrs = [("n", PyVal.scalar tyNone)] ∧
    (∃ fm, dictLookup "NoneType"
      (register Mapper.init objNoneType []).1.flaskrp_mapping = some fm) ∧
    (register (register Mapper.init objNoneType []).1 objWithNone []).2 = none :=
  ⟨rfl, rfl, ⟨_, rfl⟩, rfl⟩

/-- C10 amended: as long as no registered class is itself named
`NoneType`, an object with a `None`-valued attribute can never be
registered (the registry is left unchanged), and when the `None`
attribute comes first the error is the unknown-type `MappingError`
naming `NoneType`. -/
theorem none_attr_unknown_type :
    (∀ (m : Mapper) (obj : DomainObj) (req : List String) (k : String) (ty : PyType),
      (k, PyVal.scalar ty) ∈ obj.attrs → ty.name = "NoneType" →
      dictLookup "NoneType" m.flaskrp_mapping = none →
      (register m obj req).2.isSome ∧ (register m obj req).1 = m) ∧
    (∀ (m : Mapper) (obj : DomainObj) (req : List String) (k : String) (ty : PyType)
       (rest : List (String × PyVal)),
      obj.attrs = (k, PyVal.scalar ty) :: rest → ty.name = "NoneType" →
      dictLookup "NoneType" m.flaskrp_mapping = none →
      register m obj req = (m, some (.unknownType "NoneType"))) := by
  have hc : ∀ (m : Mapper) (pmap : List (String × String)) (req : List String)
      (k : String) (ty : PyType), ty.name = "NoneType" →
      dictLookup "NoneType" m.flaskrp_mapping = none →
      classifyAttr m pmap req k (.scalar ty) = .error (.unknownType "NoneType") := by
    intro m pmap req k ty hname hlook
    unfold classifyAttr
    dsimp only
    rw [hname, if_neg (by decide), hlook]
  constructor
  · intro m obj req k ty hmem hname hlook
    exact register_attr_error_state hmem (hc m _ req k ty hname hlook)
  · intro m obj req k ty rest hattrs hname hlook
    exact register_first_attr_error hattrs (hc m _ req k ty hname hlook)

/-- Witness for C10 amended: an object with a `None` attribute on the
empty registry. -/
theorem none_attr_unknown_type_witness :
    register Mapper.init objWithNone [] = (Mapper.init, some (.unknownType "NoneType")) :=
  none_attr_unknown_type.2 Mapper.init objWithNone [] "n" tyNone [] rfl rfl rfl

/-! ### Scalar classification helpers -/

theorem classifyAttr_scalar_prim (m : Mapper) (pmap : List (String × String))
    (req : List String) (k : String) (ty : PyType)
    (hp : primitiveTypeNames.contains ty.name = true) :
    classifyAttr m pmap req k (.scalar ty) =
      .ok (⟨.prim ty.name, some (.scalar ty), dictLookup k pmap, req.contains k⟩,
           ⟨.prim ty.name, req.contains k⟩) := by
  unfold classifyAttr
  dsimp only
  rw [if_pos hp]

theorem classifyAttr_scalar_nested (m : Mapper) (pmap : List (String × String))
    (req : List String) (k : String) (ty : PyType) (fm : FlaskModel) (ms : MMSchema)
    (hp : primitiveTypeNames.contains ty.name = false)
    (hf : dictLookup ty.name m.flaskrp_mapping = some fm)
    (hmm : dictLookup ty.name m.mm_mapping = some ms) :
    classifyAttr m pmap req k (.scalar ty) =
      .ok (⟨.nested ty.name, none, none, req.contains k⟩,
           ⟨.nested ty.name, req.contains k⟩) := by
  unfold classifyAttr
  dsimp only
  rw [if_neg (by rw [hp]; simp), hf, hmm]

theorem classifyAttr_scalar_unknown (m : Mapper) (pmap : List (String × String))
    (req : List String) (k : String) (ty : PyType)
    (hp : primitiveTypeNames.contains ty.name = false)
    (hf : dictLookup ty.name m.flaskrp_mapping = none) :
    classifyAttr m pmap req k (.scalar ty) = .error (.unknownType ty.name) := by
  unfold classifyAttr
  dsimp only
  rw [if_neg (by rw [hp]; simp), hf]

/-- C6: classification order for a single non-list attribute value: a
runtime-type name among the fixed primitive kinds is classified as that
primitive regardless of the registry (primitive matching takes
precedence over registered-type matching); otherwise a name keyed in the
registry of previously registered complex types is classified as a
nested reference to it; otherwise classification — and registration,
when such an attribute comes first — fails with the unknown-type error
naming the type. -/
theorem scalar_classification_order :
    (∀ (m : Mapper) (pmap : List (String × String)) (req : List String) (k : String)
       (ty : PyType),
      primitiveTypeNames.contains ty.name = true →
      classifyAttr m pmap req k (.scalar ty) =
        .ok (⟨.prim ty.name, some (.scalar ty), dictLookup k pmap, req.contains k⟩,
             ⟨.prim ty.name, req.contains k⟩)) ∧
    (∀ (m : Mapper) (pmap : List (String × String)) (req : List String) (k : String)
       (ty : PyType) (fm : FlaskModel) (ms : MMSchema),
      primitiveTypeNames.contains ty.name = false →
      dictLookup ty.name m.flaskrp_mapping = some fm →
      dictLookup ty.name m.mm_mapping = some ms →
      classifyAttr m pmap req k (.scalar ty) =
        .ok (⟨.nested ty.name, none, none, req.contains k⟩,
             ⟨.nested ty.name, req.contains k⟩)) ∧
    (∀ (m : Mapper) (pmap : List (String × String)) (req : List String) (k : String)
       (ty : PyType),
      primitiveTypeNames.contains ty.name = false →
      dictLookup ty.name m.flaskrp_mapping = none →
      classifyAttr m pmap req k (.scalar ty) = .error (.unknownType ty.name)) ∧
    (∀ (m : Mapper) (obj : DomainObj) (req : List String) (k : String) (ty : PyType)
       (rest : List (String × PyVal)),
      obj.attrs = (k, PyVal.scalar ty) :: rest →
      primitiveTypeNames.contains ty.name = false →
      dictLookup ty.name m.flaskrp_mapping = none →
      register m obj req = (m, some (.unknownType ty.name))) := by
  refine ⟨classifyAttr_scalar_prim, classifyAttr_scalar_nested,
    classifyAttr_scalar_unknown, ?_⟩
  intro m obj req k ty rest hattrs hp hf
  exact register_first_attr_error hattrs
    (classifyAttr_scalar_unknown m _ req k ty hp hf)

/-- Witness for C6 at concrete primitive, registered, and unknown types. -/
theorem scalar_classification_order_witness :
    classifyAttr Mapper.init [] [] "k" (.scalar tyStr) =
      .ok (⟨.prim "str", some (.scalar tyStr), dictLookup "k" [], ([] : List String).contains "k"⟩,
           ⟨.prim "str", ([] : List String).contains "k"⟩) ∧
    classifyAttr mapperA [] [] "k" (.scalar ⟨"A", ["object"]⟩) =
      .ok (⟨.nested "A", none, none, ([] : List String).contains "k"⟩,
           ⟨.nested "A", ([] : List String).contains "k"⟩) ∧
    classifyAttr Mapper.init [] [] "k" (.scalar tyWeird) = .error (.unknownType "Weird") ∧
    register Mapper.init objWeird1 [] = (Mapper.init, some (.unknownType "Weird")) :=
  ⟨scalar_classification_order.1 Mapper.init [] [] "k" tyStr (by decide),
   scalar_classification_order.2.1 mapperA [] [] "k" ⟨"A", ["object"]⟩
     ⟨"A", [("x", ⟨.prim "str", some (.scalar tyStr), none, true⟩)]⟩
     ⟨[("x", ⟨.prim "str", true⟩)], "A"⟩ (by decide) rfl rfl,
   scalar_classification_order.2.2.1 Mapper.init [] [] "k" tyWeird (by decide) rfl,
   scalar_classification_order.2.2.2 Mapper.init objWeird1 [] "u" tyWeird [] rfl
     (by decide) rfl⟩

/-- The implicit registry invariant of C9: the flask-restplus mapping
and the marshmallow mapping hold exactly the same class-name keys. -/
def keysAligned (m : Mapper) : Prop :=
  dictKeys m.flaskrp_mapping = dictKeys m.mm_mapping

/-- C9: the two registries always hold exactly the same set of
class-name keys: the invariant holds initially, is preserved by every
`register` call (successful or failed; the lookups and `parse_data`
perform no registry writes at all), and under it a class has a stored
flask-restplus output schema exactly when it has a stored marshmallow
input schema. -/
theorem registry_keys_aligned :
    keysAligned Mapper.init ∧
    (∀ (m : Mapper) (obj : DomainObj) (req : List String),
      keysAligned m → keysAligned (register m obj req).1) ∧
    (∀ (m : Mapper) (c : String), keysAligned m →
      ((∃ fm, get_flask_restplus_schema m c = .ok fm) ↔
       (∃ ms, get_marshmallow_schema m c = .ok ms))) := by
  refine ⟨rfl, ?_, ?_⟩
  · intro m obj req hka
    rcases register_cases m obj req with ⟨h1, -⟩ | ⟨-, fm, ms, h1⟩
    · rw [h1]; exact hka
    · rw [h1]
      exact dictKeys_insert_congr obj.clsName fm ms hka
  · intro m c hka
    have hiff : c ∈ dictKeys m.flaskrp_mapping ↔ c ∈ dictKeys m.mm_mapping := by
      unfold keysAligned at hka
      rw [hka]
    constructor
    · rintro ⟨fm, hf⟩
      unfold get_flask_restplus_schema at hf
      cases hl : dictLookup c m.flaskrp_mapping with
      | none => rw [hl] at hf; cases hf
      | some x =>
        have hmem : c ∈ dictKeys m.flaskrp_mapping :=
          (dictLookup_isSome_iff c _).mp (by rw [hl]; rfl)
        have hsome := (dictLookup_isSome_iff c m.mm_mapping).mpr (hiff.mp hmem)
        cases hl2 : dictLookup c m.mm_mapping with
        | none => rw [hl2] at hsome; cases hsome
        | some y => exact ⟨y, by unfold get_marshmallow_schema; rw [hl2]⟩
    · rintro ⟨ms, hs⟩
      unfold get_marshmallow_schema at hs
      cases hl : dictLookup c m.mm_mapping with
      | none => rw [hl] at hs; cases hs
      | some x =>
        have hmem : c ∈ dictKeys m.mm_mapping :=
          (dictLookup_isSome_iff c _).mp (by rw [hl]; rfl)
        have hsome := (dictLookup_isSome_iff c m.flaskrp_mapping).mpr (hiff.mpr hmem)
        cases hl2 : dictLookup c m.flaskrp_mapping with
        | none => rw [hl2] at hsome; cases hsome
        | some y => exact ⟨y, by unfold get_flask_restplus_schema; rw [hl2]⟩

/-- Witness for C9 after one concrete registration. -/
theorem registry_keys_aligned_witness :
    keysAligned (register Mapper.init objA ["x"]).1 ∧
    ((∃ fm, get_flask_restplus_schema (register Mapper.init objA ["x"]).1 "A" = .ok fm) ↔
     (∃ ms, get_marshmallow_schema (register Mapper.init objA ["x"]).1 "A" = .ok ms)) :=
  ⟨registry_keys_aligned.2.1 Mapper.init objA ["x"] rfl,
   registry_keys_aligned.2.2 (register Mapper.init objA ["x"]).1 "A" rfl⟩

/-- C5: inheritance composition: if `B`'s single declared parent `A` is
registered (its stored output model containing field `x`) and `B`
registers successfully adding attribute `y`, the output schema looked up
for `B` contains every parent field and every own attribute — in
particular both `x` and `y`; if instead the declared parent is the root
`object` type, `B`'s schema has exactly the fields derived from its own
attributes, with no inherited fields. -/
theorem inheritance_composition :
    (∀ (m m' : Mapper) (obj : DomainObj) (req : List String) (a : String) (pm : FlaskModel),
      obj.bases = [a] → a ≠ "object" →
      dictLookup a m.flaskrp_mapping = some pm →
      register m obj req = (m', none) →
      ∃ bm, get_flask_restplus_schema m' obj.clsName = .ok bm ∧
        (∀ x, x ∈ dictKeys pm.fields → x ∈ dictKeys bm.fields) ∧
        (∀ y, y ∈ obj.attrs.map Prod.fst → y ∈ dictKeys bm.fields)) ∧
    (∀ (m m' : Mapper) (obj : DomainObj) (req : List String),
      obj.bases = ["object"] →
      register m obj req = (m', none) →
      ∃ bm, get_flask_restplus_schema m' obj.clsName = .ok bm ∧
        ∀ k, k ∈ dictKeys bm.fields ↔ k ∈ obj.attrs.map Prod.fst) := by
  constructor
  · intro m m' obj req a pm hb hob hlook hreg
    obtain ⟨fdict, mdict, b, hbf, hb2, hcase⟩ := register_ok_inv hreg
    have hab : a = b := by
      refine singleton_list_inj ?_
      rw [← hb]
      exact hb2
    subst hab
    rcases hcase with ⟨hbo, -⟩ | ⟨-, pm', ps', hf', hmm', hm'⟩
    · exact absurd hbo hob
    · have hpm : pm' = pm := (Option.some.inj (hlook.symm.trans hf')).symm
      rw [hpm] at hm'
      refine ⟨⟨obj.clsName, dictUpdate pm.fields fdict⟩, ?_, ?_, ?_⟩
      · rw [hm']
        unfold get_flask_restplus_schema
        rw [dictLookup_insert_self]
      · intro x hx
        exact (mem_dictKeys_update x pm.fields fdict).mpr (Or.inl hx)
      · intro y hy
        have hk := (buildFields_mem_keys hbf y).1
        exact (mem_dictKeys_update y pm.fields fdict).mpr (Or.inr (hk.mpr (Or.inl hy)))
  · intro m m' obj req hb hreg
    obtain ⟨fdict, mdict, b, hbf, hb2, hcase⟩ := register_ok_inv hreg
    have hbo : b = "object" := by
      refine (singleton_list_inj ?_).symm
      rw [← hb]
      exact hb2
    subst hbo
    rcases hcase with ⟨-, hm'⟩ | ⟨hne, -⟩
    · refine ⟨⟨obj.clsName, fdict⟩, ?_, ?_⟩
      · rw [hm']
        unfold get_flask_restplus_schema
        rw [dictLookup_insert_self]
      · intro k
        have hk := (buildFields_mem_keys hbf k).1
        rw [hk]
        simp [dictKeys]
    · exact absurd rfl hne

/-- Witness for C5 at the concrete `A` / `B` scenario. -/
theorem inheritance_composition_witness :
    (∃ bm, get_flask_restplus_schema mapperAB "B" = .ok bm ∧
      "x" ∈ dictKeys bm.fields ∧ "y" ∈ dictKeys bm.fields) ∧
    (∃ am, get_flask_restplus_schema mapperA "A" = .ok am ∧
      ∀ k, k ∈ dictKeys am.fields ↔ k ∈ objA.attrs.map Prod.fst) := by
  constructor
  · obtain ⟨bm, hget, hx, hy⟩ := inheritance_composition.1 mapperA mapperAB objB [] "A"
      ⟨"A", [("x", ⟨.prim "str", some (.scalar tyStr), none, true⟩)]⟩ rfl (by decide) rfl rfl
    exact ⟨bm, hget, hx "x" (by decide), hy "y" (by decide)⟩
  · exact inheritance_composition.2 Mapper.init mapperA objA ["x"] rfl rfl

/-- C3 counterexample: register `A` with `required=["x"]`, then `B`
(parent `A`, own attribute `y`) with an empty required list; `B`'s input
schema still marks the inherited field `x` as required even though `x`
is not in `B`'s required list. -/
theorem required_flags_inheritance_cex :
    (register mapperA objB []).2 = none ∧
    get_marshmallow_schema mapperAB "B" =
      .ok ⟨[("x", ⟨.prim "str", true⟩), ("y", ⟨.prim "str", false⟩)], "B"⟩ ∧
    ("x" ∈ ([] : List String) → False) :=
  ⟨rfl, rfl, by decide⟩

/-- C3 amended: for every successfully registered class, the fields
derived from the instance's own attributes are marked required exactly
when their name is in the required list passed to that call (the
reserved marshmallow key `make_object` aside); fields inherited from the
parent's stored input schema and not re-derived from an own attribute
keep the parent's required marking unchanged. -/
theorem input_schema_required_flags :
    (∀ (m m' : Mapper) (obj : DomainObj) (req : List String) (k : String) (v : PyVal),
      (obj.attrs.map Prod.fst).Nodup →
      register m obj req = (m', none) →
      (k, v) ∈ obj.attrs → k ≠ "make_object" →
      ∃ s fld, get_marshmallow_schema m' obj.clsName = .ok s ∧
        dictLookup k s.fields = some fld ∧ fld.required = req.contains k) ∧
    (∀ (m m' : Mapper) (obj : DomainObj) (req : List String) (b : String) (ps : MMSchema)
       (k : String),
      register m obj req = (m', none) →
      obj.bases = [b] → b ≠ "object" →
      dictLookup b m.mm_mapping = some ps →
      k ∉ obj.attrs.map Prod.fst →
      ∃ s, get_marshmallow_schema m' obj.clsName = .ok s ∧
        dictLookup k s.fields = dictLookup k ps.fields) := by
  constructor
  · intro m m' obj req k v hnd hreg hmem hkm
    obtain ⟨fdict, mdict, b, hbf, hb2, hcase⟩ := register_ok_inv hreg
    obtain ⟨⟨fo, fi⟩, hc⟩ := buildFields_ok_classify hbf k v hmem
    have hreqd := (classifyAttr_required hc).2
    have hlook := (buildFields_lookup_mem hnd hbf hmem hc).2
    have hlookF : dictLookup k (dictRemove "make_object" mdict) = some fi := by
      rw [dictLookup_remove_ne _ hkm]
      exact hlook
    have hndm : (dictKeys (dictRemove "make_object" mdict)).Nodup :=
      dictKeys_remove_nodup
        (buildFields_nodup (by simp [dictKeys]) (by simp [dictKeys]) hbf).2
    rcases hcase with ⟨-, hm'⟩ | ⟨-, pm, ps, -, -, hm'⟩
    · refine ⟨⟨dictRemove "make_object" mdict, obj.clsName⟩, fi, ?_, hlookF, hreqd⟩
      rw [hm']
      unfold get_marshmallow_schema
      rw [dictLookup_insert_self]
    · refine ⟨⟨dictUpdate ps.fields (dictRemove "make_object" mdict), obj.clsName⟩, fi,
        ?_, ?_, hreqd⟩
      · rw [hm']
        unfold get_marshmallow_schema
        rw [dictLookup_insert_self]
      · exact dictUpdate_lookup_mem ps.fields hndm hlookF
  · intro m m' obj req b ps k hreg hb hob hmmps hkn
    obtain ⟨fdict, mdict, b', hbf, hb2, hcase⟩ := register_ok_inv hreg
    have hbb : b' = b := by
      refine (singleton_list_inj ?_).symm
      rw [← hb]
      exact hb2
    subst hbb
    rcases hcase with ⟨hbo, -⟩ | ⟨-, pm', ps', hf', hmm', hm'⟩
    · exact absurd hbo hob
    · have hps : ps' = ps := (Option.some.inj (hmmps.symm.trans hmm')).symm
      rw [hps] at hm'
      refine ⟨⟨dictUpdate ps.fields (dictRemove "make_object" mdict), obj.clsName⟩, ?_, ?_⟩
      · rw [hm']
        unfold get_marshmallow_schema
        rw [dictLookup_insert_self]
      · have hknm : k ∉ dictKeys (dictRemove "make_object" mdict) := by
          intro hcon
          have h1 := mem_dictKeys_remove hcon
          have h2 := (buildFields_mem_keys hbf k).2.mp h1
          rcases h2 with h2 | h2
          · exact hkn h2
          · simp [dictKeys] at h2
        exact dictUpdate_lookup_not_mem ps.fields hknm

/-- Witness for C3 amended at the concrete `A` / `B` scenario. -/
theorem input_schema_required_flags_witness :
    (∃ s fld, get_marshmallow_schema mapperAB "B" = .ok s ∧
      dictLookup "y" s.fields = some fld ∧
      fld.required = ([] : List String).contains "y") ∧
    (∃ s, get_marshmallow_schema mapperAB "B" = .ok s ∧
      dictLookup "x" s.fields =
        dictLookup "x" [("x", (⟨.prim "str", true⟩ : InField))]) := by
  constructor
  · exact input_schema_required_flags.1 mapperA mapperAB objB [] "y" (.scalar tyStr)
      (by decide) rfl (List.mem_singleton.mpr rfl) (by decide)
  · exact input_schema_required_flags.2 mapperA mapperAB objB [] "A"
      ⟨[("x", ⟨.prim "str", true⟩)], "A"⟩ "x" rfl rfl (by decide) rfl (by decide)

/-- C8 counterexample: a documented list-valued field carries no
description in the output schema: the source passes `description` only
to the primitive non-list field constructor, so list (and nested) fields
drop it even when a matching doc line exists. -/
theorem description_dropped_cex :
    dictLookup "f" (parse_doc_string objDocList.initDoc) = some "hello" ∧
    (register Mapper.init objDocList []).2 = none ∧
    get_flask_restplus_schema (register Mapper.init objDocList []).1 "D" =
      .ok ⟨"D", [("f", ⟨.listPrim "str", some (.list [.scalar tyStr]), none, false⟩)]⟩ :=
  ⟨rfl, rfl, rfl⟩

/-- C8 amended: in a successful registration, an own attribute's output
field carries as description exactly the parsed doc entry for its name
when the attribute is a primitive non-list value, and no description
otherwise (nested and list fields drop it); a field with no matching
doc line has no description, and doc-string content — malformed lines
included — can never change registration success or its error. -/
theorem field_descriptions :
    (∀ (m m' : Mapper) (obj : DomainObj) (req : List String) (k : String) (v : PyVal),
      (obj.attrs.map Prod.fst).Nodup →
      register m obj req = (m', none) →
      (k, v) ∈ obj.attrs →
      ∃ bm fld, get_flask_restplus_schema m' obj.clsName = .ok bm ∧
        dictLookup k bm.fields = some fld ∧
        fld.description = docDescription (parse_doc_string obj.initDoc) k v) ∧
    (∀ (m : Mapper) (c : String) (bs : List String) (a : List (String × PyVal))
       (d₁ d₂ : Option String) (req : List String),
      (register m ⟨c, bs, a, d₁⟩ req).2 = (register m ⟨c, bs, a, d₂⟩ req).2) := by
  constructor
  · intro m m' obj req k v hnd hreg hmem
    obtain ⟨fdict, mdict, b, hbf, hb2, hcase⟩ := register_ok_inv hreg
    obtain ⟨⟨fo, fi⟩, hc⟩ := buildFields_ok_classify hbf k v hmem
    have hdesc := classifyAttr_description hc
    have hlook := (buildFields_lookup_mem hnd hbf hmem hc).1
    have hndf : (dictKeys fdict).Nodup :=
      (buildFields_nodup (by simp [dictKeys]) (by simp [dictKeys]) hbf).1
    rcases hcase with ⟨-, hm'⟩ | ⟨-, pm, ps, -, -, hm'⟩
    · refine ⟨⟨obj.clsName, fdict⟩, fo, ?_, hlook, hdesc⟩
      rw [hm']
      unfold get_flask_restplus_schema
      rw [dictLookup_insert_self]
    · refine ⟨⟨obj.clsName, dictUpdate pm.fields fdict⟩, fo, ?_, ?_, hdesc⟩
      · rw [hm']
        unfold get_flask_restplus_schema
        rw [dictLookup_insert_self]
      · exact dictUpdate_lookup_mem pm.fields hndf hlook
  · exact register_snd_doc_indep

/-- Witness for C8 amended at a documented primitive field and a
doc-string variation. -/
theorem field_descriptions_witness :
    (∃ bm fld,
      get_flask_restplus_schema (register Mapper.init objDocStr []).1 "DS" = .ok bm ∧
      dictLookup "g" bm.fields = some fld ∧
      fld.description =
        docDescription (parse_doc_string objDocStr.initDoc) "g" (.scalar tyStr)) ∧
    (register Mapper.init ⟨"DS", ["object"], [("g", .scalar tyStr)], some ":g: gdesc"⟩ []).2 =
      (register Mapper.init ⟨"DS", ["object"], [("g", .scalar tyStr)], none⟩ []).2 := by
  constructor
  · exact field_descriptions.1 Mapper.init (register Mapper.init objDocStr []).1 objDocStr []
      "g" (.scalar tyStr) (by decide) rfl (List.mem_singleton.mpr rfl)
  · exact field_descriptions.2 Mapper.init "DS" ["object"] [("g", .scalar tyStr)]
      (some ":g: gdesc") none []
